import Mathlib

/-!
Verification of the task-tracking utility in `pik.py`.

The development shallowly embeds the program: Python `str` values become
Lean `String`, Python `datetime` values become the `DateTime` structure
below (naive local datetimes: year, month, day, hour, minute, second,
microsecond), in-place mutation becomes explicit state passing, and
raised `ValueError`s become `Except`/`Option` results.  The backing file
is modelled by its text content (a `String`); a missing file is `none`.

Modelling notes on `datetime`:
* `DateTime.isoformat` models `datetime.isoformat()` and `DateTime.pyStr`
  models `str(datetime)` (which is `isoformat(sep=' ')`): zero-padded
  `YYYY-MM-DD`, the separator, `HH:MM:SS`, and a 6-digit `.ffffff`
  microsecond suffix exactly when the microsecond is nonzero.
* `fromisoformat` models `datetime.fromisoformat` as implemented in
  CPython's pre-3.11 `_parse_isoformat_date`/`_parse_isoformat_time`:
  a mandatory `YYYY-MM-DD` date, an arbitrary single separator
  character that is sliced away unchecked (a string of length 11 whose
  time part is empty is accepted with a midnight time), an optional
  `HH[:MM[:SS[.fff or .ffffff]]]` time, and field range checks with the
  Gregorian leap rule.  Two CPython quirks are out of scope here and are
  never produced by the serializer: timezone offsets, and the tolerance
  of `int()` for signs and padding blanks inside a two-character slice.
-/

/-- One decimal digit as a character, `0 ≤ n ≤ 9` intended. -/
def digitChar (n : Nat) : Char := Char.ofNat (48 + n)

/-- Numeric value of a decimal digit character. -/
def charVal (c : Char) : Nat := c.toNat - 48

/-- Zero-padded fixed-width decimal numeral, most significant digit first.
Models the `%04d`-style padding used by `datetime.isoformat`. -/
def padChars : Nat → Nat → List Char
  | 0, _ => []
  | w + 1, n => digitChar (n / 10 ^ w) :: padChars w (n % 10 ^ w)

/-- Read exactly `w` decimal digits, accumulating onto `acc`; fails on a
non-digit or if the input is too short.  Models the fixed-width integer
slices taken by CPython's isoformat parser. -/
def readDigits : Nat → Nat → List Char → Option (Nat × List Char)
  | 0, acc, cs => some (acc, cs)
  | w + 1, acc, c :: cs => if c.isDigit then readDigits w (acc * 10 + charVal c) cs else none
  | _ + 1, _, [] => none

/-- Require the next character to be `c`. -/
def expectChar (c : Char) : List Char → Option (List Char)
  | x :: cs => if x = c then some cs else none
  | [] => none

/-- A naive `datetime.datetime` value (no timezone; the program only ever
uses `datetime.now()`, which is naive). -/
structure DateTime where
  year : Nat
  month : Nat
  day : Nat
  hour : Nat
  minute : Nat
  second : Nat
  microsecond : Nat
deriving DecidableEq, Repr

/-- Gregorian leap-year rule, as in CPython's `datetime._is_leap`. -/
def isLeap (y : Nat) : Bool := (y % 4 = 0 && y % 100 ≠ 0) || y % 400 = 0

/-- Days in a month, as in CPython's `datetime._days_in_month`. -/
def daysInMonth (y m : Nat) : Nat :=
  if m = 2 then (if isLeap y then 29 else 28)
  else if m = 4 ∨ m = 6 ∨ m = 9 ∨ m = 11 then 30
  else 31

/-- The field range checks of `datetime._check_date_fields` and
`_check_time_fields` (MINYEAR = 1, MAXYEAR = 9999). -/
def DateTime.valid (d : DateTime) : Bool :=
  1 ≤ d.year && d.year ≤ 9999 && 1 ≤ d.month && d.month ≤ 12 &&
  1 ≤ d.day && d.day ≤ daysInMonth d.year d.month &&
  d.hour ≤ 23 && d.minute ≤ 59 && d.second ≤ 59 && d.microsecond ≤ 999999

/-- Character form of `isoformat(sep)`: `YYYY-MM-DD{sep}HH:MM:SS` plus a
6-digit fraction exactly when the microsecond is nonzero. -/
def fmtDateTime (sep : Char) (d : DateTime) : List Char :=
  padChars 4 d.year ++ '-' :: padChars 2 d.month ++ '-' :: padChars 2 d.day ++
  sep :: padChars 2 d.hour ++ ':' :: padChars 2 d.minute ++ ':' :: padChars 2 d.second ++
  (if d.microsecond = 0 then [] else '.' :: padChars 6 d.microsecond)

/-- Models `datetime.isoformat()` (separator `T`). -/
def DateTime.isoformat (d : DateTime) : String := ⟨fmtDateTime 'T' d⟩

/-- Models `str(datetime)`, i.e. `isoformat(sep=' ')`. -/
def DateTime.pyStr (d : DateTime) : String := ⟨fmtDateTime ' ' d⟩

/-- Models CPython's `_parse_hh_mm_ss_ff`: `HH[:MM[:SS[.fff or .ffffff]]]`,
a three-digit fraction meaning milliseconds. -/
def parseHMS (cs : List Char) : Option (Nat × Nat × Nat × Nat) :=
  match readDigits 2 0 cs with
  | none => none
  | some (h, cs) =>
    match cs with
    | [] => some (h, 0, 0, 0)
    | ':' :: cs =>
      match readDigits 2 0 cs with
      | none => none
      | some (mi, cs) =>
        match cs with
        | [] => some (h, mi, 0, 0)
        | ':' :: cs =>
          match readDigits 2 0 cs with
          | none => none
          | some (s, cs) =>
            match cs with
            | [] => some (h, mi, s, 0)
            | '.' :: cs =>
              if cs.length = 3 then
                match readDigits 3 0 cs with
                | some (f, _) => some (h, mi, s, f * 1000)
                | none => none
              else if cs.length = 6 then
                match readDigits 6 0 cs with
                | some (f, _) => some (h, mi, s, f)
                | none => none
              else none
            | _ => none
        | _ => none
    | _ => none

/-- Assemble parsed datetime fields and apply the range checks. -/
def mkChecked (y mo dy h mi s us : Nat) : Option DateTime :=
  let d : DateTime := ⟨y, mo, dy, h, mi, s, us⟩
  if d.valid then some d else none

/-- Models `datetime.fromisoformat` on a character list (see the header
comment for the exact CPython behaviour covered). -/
def fromisoChars (cs : List Char) : Option DateTime :=
  match readDigits 4 0 cs with
  | none => none
  | some (y, cs) =>
    match expectChar '-' cs with
    | none => none
    | some cs =>
      match readDigits 2 0 cs with
      | none => none
      | some (mo, cs) =>
        match expectChar '-' cs with
        | none => none
        | some cs =>
          match readDigits 2 0 cs with
          | none => none
          | some (dy, cs) =>
            match cs with
            | [] => mkChecked y mo dy 0 0 0 0
            | [_] => mkChecked y mo dy 0 0 0 0
            | _ :: rest =>
              match parseHMS rest with
              | none => none
              | some (h, mi, s, us) => mkChecked y mo dy h mi s us

/-- Models `datetime.fromisoformat` on a `String`. -/
def fromisoformat (s : String) : Option DateTime := fromisoChars s.data

example : fromisoformat "2024-01-02T03:04:05" = some ⟨2024, 1, 2, 3, 4, 5, 0⟩ := by decide
example : fromisoformat "2024-01-02 03:04:05.000123" = some ⟨2024, 1, 2, 3, 4, 5, 123⟩ := by decide
example : fromisoformat "2024-02-30 03:04:05" = none := by decide
example : fromisoformat "garbage" = none := by decide
example : fromisoformat "2024-01-02" = some ⟨2024, 1, 2, 0, 0, 0, 0⟩ := by decide
example : DateTime.isoformat ⟨2024, 1, 2, 3, 4, 5, 0⟩ = "2024-01-02T03:04:05" := by decide
example : DateTime.pyStr ⟨2024, 1, 2, 3, 4, 5, 120⟩ = "2024-01-02 03:04:05.000120" := by decide

/-- The whitespace characters stripped by Python's `str.strip()` (the
ASCII ones; the program never produces other whitespace). -/
def isSpace (c : Char) : Bool :=
  c = ' ' || c = '\t' || c = '\n' || c = '\r' || c = '\x0b' || c = '\x0c'

/-- Models `str.strip()` on a character list. -/
def pyStripData (cs : List Char) : List Char :=
  ((cs.dropWhile isSpace).reverse.dropWhile isSpace).reverse

/-- Models `str.strip()`. -/
def pyStrip (s : String) : String := ⟨pyStripData s.data⟩

/-- Models `str.split(sep)` for a one-character separator: splits at every
occurrence, keeping empty pieces, and yields one piece for the empty
string. -/
def pySplitChar (sep : Char) : List Char → List (List Char)
  | [] => [[]]
  | c :: cs =>
    if c = sep then [] :: pySplitChar sep cs
    else
      match pySplitChar sep cs with
      | f :: r => (c :: f) :: r
      | [] => [[c]]

/-- Models `line.split(";")`. -/
def splitSemi (s : String) : List String := (pySplitChar ';' s.data).map fun cs => (⟨cs⟩ : String)

/-- Models `str.lower()` restricted to the characters this program
manipulates: ASCII letters plus the accented letter of the priority
`média` (CPython lowercases the whole of Unicode; only these cases can
arise here). -/
def pyLowerChar (c : Char) : Char := if c = 'É' then 'é' else c.toLower

/-- Models `str.lower()`. -/
def pyLower (s : String) : String := ⟨s.data.map pyLowerChar⟩

example : splitSemi "a;;b" = ["a", "", "b"] := by decide
example : splitSemi "" = [""] := by decide
example : pyStrip "  a b\n" = "a b" := by decide
example : pyLower "ALTA" = "alta" := by decide
example : pyLower "MÉDIA" = "média" := by decide

namespace Pik

/-- The `Task` record of `pik.py`: name, priority, category, creation
timestamp, completion flag and optional completion timestamp. -/
structure Task where
  nome : String
  prioridade : String
  categoria : String
  data_criacao : DateTime
  concluida : Bool
  data_conclusao : Option DateTime
deriving DecidableEq, Repr

/-- The `Task` constructor (`Task.__init__`): lowercases the priority,
stamps the creation time with the current clock, and starts pending with
no completion timestamp. -/
def Task.init (nome prioridade categoria : String) (now : DateTime) : Task :=
  { nome := nome, prioridade := pyLower prioridade, categoria := categoria,
    data_criacao := now, concluida := false, data_conclusao := none }

/-- The completion transition `Task.concluir`: sets the flag and stamps
the completion time with the current clock. -/
def Task.concluir (t : Task) (now : DateTime) : Task :=
  { t with concluida := true, data_conclusao := some now }

/-- Serialization of the optional completion timestamp inside the f-string
of `to_line`: Python formats `None` as the text `None` and a datetime via
`str`. -/
def strOptDT : Option DateTime → String
  | none => "None"
  | some d => d.pyStr

/-- `Task.to_line`: the `;`-joined f-string, with `isoformat()` for the
creation timestamp, `True`/`False` for the flag (Python's `str(bool)`),
and `strOptDT` for the completion timestamp. -/
def Task.to_line (t : Task) : String :=
  t.nome ++ ";" ++ t.prioridade ++ ";" ++ t.categoria ++ ";" ++
  t.data_criacao.isoformat ++ ";" ++ (if t.concluida then "True" else "False") ++ ";" ++
  strOptDT t.data_conclusao

/-- `Task.from_line`: strips the line, splits on `;` (tuple unpacking
fails unless there are exactly six fields), builds a task through the
constructor (hence the priority is lowercased; the constructor's clock
argument is irrelevant because the creation timestamp is overwritten),
re-parses the creation timestamp, compares the flag field with the text
`True`, and parses the completion field unless it is the text `None`.
Failure (`none`) models a raised `ValueError`. -/
def Task.from_line (linha : String) : Option Task :=
  match splitSemi (pyStrip linha) with
  | [nome, prioridade, categoria, data_criacao, concluida, data_conclusao] =>
    match fromisoformat data_criacao with
    | none => none
    | some dc =>
      let t0 := Task.init nome prioridade categoria dc
      let t1 := { t0 with data_criacao := dc, concluida := decide (concluida = "True") }
      if data_conclusao = "None" then some t1
      else
        match fromisoformat data_conclusao with
        | none => none
        | some dcon => some { t1 with data_conclusao := some dcon }
  | _ => none

example :
    Task.from_line "a;Alta;c;2024-01-02T03:04:05;True;2024-01-02 04:00:00" =
      some ⟨"a", "alta", "c", ⟨2024, 1, 2, 3, 4, 5, 0⟩, true, some ⟨2024, 1, 2, 4, 0, 0, 0⟩⟩ := by
  decide

example : Task.from_line "a;b;c;2024-01-02T03:04:05;True" = none := by decide

example :
    Task.to_line ⟨"a", "alta", "c", ⟨2024, 1, 2, 3, 4, 5, 0⟩, false, none⟩ =
      "a;alta;c;2024-01-02T03:04:05;False;None" := by decide


/-- Error taxonomy of the store operations.  In the source all three are
`ValueError`s distinguished only by message text; the claims name them
ValidationError, DuplicateError and NotFoundError. -/
inductive Err where
  | validation
  | duplicate
  | notFound
deriving DecidableEq, Repr

/-- The `TaskManager` state: the in-memory ordered task list.  The backing
file name is external to the model; the file's content travels separately
as a `String` (`none` standing for a file that does not exist). -/
structure TaskManager where
  tasks : List Task
deriving DecidableEq, Repr

/-- `salvar_tarefas`: the full content written to the backing file, one
`to_line` per task followed by a newline, in list order. -/
def salvar_tarefas (m : TaskManager) : String :=
  ⟨(m.tasks.map fun t => t.to_line.data ++ ['\n']).flatten⟩

/-- The universal-newlines translation performed by reading a file opened
with `open(path, "r")`: every `\r\n` pair and every lone `\r` in the
stream becomes a single `\n`. -/
def univNL : List Char → List Char
  | [] => []
  | [c] => if c = '\r' then ['\n'] else [c]
  | c :: c2 :: cs =>
    if c = '\r' then
      if c2 = '\n' then '\n' :: univNL cs
      else '\n' :: univNL (c2 :: cs)
    else c :: univNL (c2 :: cs)

/-- Iterating the translated stream yields its lines: pieces ending in a
newline plus, if nonempty, the remainder after the last newline. -/
def pyLinesAux : List Char → List Char → List (List Char)
  | acc, [] => if acc = [] then [] else [acc]
  | acc, c :: cs => if c = '\n' then (acc ++ [c]) :: pyLinesAux [] cs else pyLinesAux (acc ++ [c]) cs

/-- The lines of a file content, as in `for linha in f`: universal-newlines
translation first, then splitting after each newline. -/
def pyLines (s : String) : List String :=
  (pyLinesAux [] (univNL s.data)).map fun cs => (⟨cs⟩ : String)

/-- The list comprehension of `carregar_tarefas`: parse every line, and
fail as a whole if any line fails (`ValueError` propagates). -/
def parseLines : List String → Option (List Task)
  | [] => some []
  | l :: ls =>
    match Task.from_line l, parseLines ls with
    | some t, some ts => some (t :: ts)
    | _, _ => none

/-- `carregar_tarefas`: empty list if the file does not exist, otherwise
every line parsed. -/
def carregar_tarefas (file : Option String) : Option (List Task) :=
  match file with
  | none => some []
  | some content => parseLines (pyLines content)

/-- `TaskManager.__init__`: load the backing file; a parse failure aborts
construction. -/
def TaskManager.init (file : Option String) : Option TaskManager :=
  (carregar_tarefas file).map TaskManager.mk

/-- `adicionar_tarefa`: validate the lowercased priority against the
enumerated set, check name uniqueness, append the new task, persist.
Both checks precede any mutation, so on error the in-memory list and the
backing file are untouched (the error result carries no new state). -/
def adicionar_tarefa (m : TaskManager) (nome prioridade categoria : String) (now : DateTime) :
    Except Err (TaskManager × String) :=
  if ¬ ((["baixa", "média", "alta"] : List String).contains (pyLower prioridade)) then
    .error .validation
  else if m.tasks.any fun t => decide (t.nome = nome) then
    .error .duplicate
  else
    let m' : TaskManager := ⟨m.tasks ++ [Task.init nome prioridade categoria now]⟩
    .ok (m', salvar_tarefas m')

/-- `listar_tarefas`: keep the tasks whose completion flag matches the
optional filter (`none` keeps everything), in list order. -/
def listar_tarefas (m : TaskManager) (concluida : Option Bool) : List Task :=
  m.tasks.filter fun t =>
    match concluida with
    | none => true
    | some c => t.concluida == c

/-- `encontrar_tarefa`: first task with exactly the given name, if any
(the source raises `ValueError` when the loop finds none). -/
def encontrar_tarefa (m : TaskManager) (nome : String) : Option Task :=
  m.tasks.find? fun t => decide (t.nome = nome)

/-- The in-place mutation done by `concluir_tarefa` through the alias
returned by `encontrar_tarefa`: replace the first task with the given
name by its completed version, or fail when there is none. -/
def completeFirst (nome : String) (now : DateTime) : List Task → Option (List Task)
  | [] => none
  | t :: ts =>
    if t.nome = nome then some (t.concluir now :: ts)
    else (completeFirst nome now ts).map fun ts' => t :: ts'

/-- `concluir_tarefa`: look the task up by name (NotFoundError when
absent), run its completion transition, persist. -/
def concluir_tarefa (m : TaskManager) (nome : String) (now : DateTime) :
    Except Err (TaskManager × String) :=
  match completeFirst nome now m.tasks with
  | none => .error .notFound
  | some ts => .ok (⟨ts⟩, salvar_tarefas ⟨ts⟩)

/-- `remover_tarefa`: drop every task with the given name (silent no-op
when none matches), persist. -/
def remover_tarefa (m : TaskManager) (nome : String) : TaskManager × String :=
  let m' : TaskManager := ⟨m.tasks.filter fun t => ! decide (t.nome = nome)⟩
  (m', salvar_tarefas m')

/-- One successful mutating operation on the store.  Failed operations
raise before mutating, so they do not change the state and need no step. -/
inductive Step : TaskManager → TaskManager → Prop where
  | add (m : TaskManager) (nome prioridade categoria : String) (now : DateTime)
      (m' : TaskManager) (f : String) :
      adicionar_tarefa m nome prioridade categoria now = .ok (m', f) → Step m m'
  | complete (m : TaskManager) (nome : String) (now : DateTime) (m' : TaskManager) (f : String) :
      concluir_tarefa m nome now = .ok (m', f) → Step m m'
  | remove (m : TaskManager) (nome : String) : Step m (remover_tarefa m nome).1

/-- Any number of successful mutating operations. -/
inductive StepStar : TaskManager → TaskManager → Prop where
  | refl (m : TaskManager) : StepStar m m
  | tail (m₁ m₂ m₃ : TaskManager) : StepStar m₁ m₂ → Step m₂ m₃ → StepStar m₁ m₃

/-- A store state is reachable when some backing file (possibly absent)
loads successfully and a sequence of operations leads from the loaded
state to it. -/
def Reachable (m : TaskManager) : Prop :=
  ∃ file m₀, TaskManager.init file = some m₀ ∧ StepStar m₀ m

/-- Total order key for naive datetimes (all fields within their valid
ranges): models comparison of `datetime` values. -/
def dtKey (d : DateTime) : Nat :=
  (((((d.year * 13 + d.month) * 32 + d.day) * 24 + d.hour) * 60 + d.minute) * 60 + d.second)
    * 1000000 + d.microsecond

/-- Models `a <= b` on `datetime` values. -/
def dtLe (a b : DateTime) : Bool := decide (dtKey a ≤ dtKey b)

example :
    TaskManager.init (some "a;alta;c;2024-01-02T03:04:05;False;None\n") =
      some ⟨[⟨"a", "alta", "c", ⟨2024, 1, 2, 3, 4, 5, 0⟩, false, none⟩]⟩ := by decide

example : TaskManager.init (some "bad line\n") = none := by decide

example :
    TaskManager.init (some "a\rb;baixa;c;2024-01-02 03:04:05;False;None\n") = none := by decide

deriving instance DecidableEq for Except

example :
    adicionar_tarefa ⟨[]⟩ "X" "Alta" "c" ⟨2024, 1, 2, 3, 4, 5, 0⟩ =
      .ok (⟨[⟨"X", "alta", "c", ⟨2024, 1, 2, 3, 4, 5, 0⟩, false, none⟩]⟩,
        "X;alta;c;2024-01-02T03:04:05;False;None\n") := by decide

example : adicionar_tarefa ⟨[]⟩ "X" "urgent" "c" ⟨2024, 1, 2, 3, 4, 5, 0⟩ = .error .validation := by
  decide

/-- Facts about a single decimal digit character. -/
theorem digitChar_props : ∀ n, n < 10 →
    (digitChar n).isDigit = true ∧ charVal (digitChar n) = n ∧ isSpace (digitChar n) = false ∧
    digitChar n ≠ ';' ∧ digitChar n ≠ '\n' ∧ digitChar n ≠ 'N' := by decide

theorem padChars_length (w : Nat) : ∀ n, (padChars w n).length = w := by
  induction w with
  | zero => intro n; rfl
  | succ w ih => intro n; simp [padChars, ih]

theorem padChars_digits (w : Nat) : ∀ n, n < 10 ^ w → ∀ c ∈ padChars w n, ∃ k, k < 10 ∧ c = digitChar k := by
  induction w with
  | zero => intro n _ c hc; simp [padChars] at hc
  | succ w ih =>
    intro n hn c hc
    simp only [padChars, List.mem_cons] at hc
    rcases hc with hc | hc
    · refine ⟨n / 10 ^ w, ?_, hc⟩
      refine (Nat.div_lt_iff_lt_mul (Nat.pos_pow_of_pos w (by norm_num))).mpr ?_
      rw [← pow_succ']; exact hn
    · exact ih (n % 10 ^ w) (Nat.mod_lt _ (Nat.pos_pow_of_pos w (by norm_num))) c hc

theorem readDigits_pad (w : Nat) : ∀ n acc (rest : List Char), n < 10 ^ w →
    readDigits w acc (padChars w n ++ rest) = some (acc * 10 ^ w + n, rest) := by
  induction w with
  | zero =>
    intro n acc rest hn
    interval_cases n
    simp [padChars, readDigits]
  | succ w ih =>
    intro n acc rest hn
    have hk : n / 10 ^ w < 10 := by
      refine (Nat.div_lt_iff_lt_mul (Nat.pos_pow_of_pos w (by norm_num))).mpr ?_
      rw [← pow_succ']; exact hn
    obtain ⟨hdig, hval, -⟩ := digitChar_props _ hk
    have hm : n % 10 ^ w < 10 ^ w := Nat.mod_lt _ (Nat.pos_pow_of_pos w (by norm_num))
    have hdm := Nat.div_add_mod n (10 ^ w)
    have harith : (acc * 10 + n / 10 ^ w) * 10 ^ w + n % 10 ^ w = acc * 10 ^ (w + 1) + n := by
      calc (acc * 10 + n / 10 ^ w) * 10 ^ w + n % 10 ^ w
          = acc * (10 ^ w * 10) + (10 ^ w * (n / 10 ^ w) + n % 10 ^ w) := by ring
        _ = acc * 10 ^ (w + 1) + n := by rw [hdm, pow_succ]
    have key := ih (n % 10 ^ w) (acc * 10 + n / 10 ^ w) rest hm
    rw [harith] at key
    simpa [padChars, List.cons_append, readDigits, hdig, hval] using key

theorem padChars_two (n : Nat) : padChars 2 n = [digitChar (n / 10), digitChar (n % 10)] := by
  simp [padChars]

theorem padChars_last (w : Nat) : ∀ n, n < 10 ^ (w + 1) →
    ∃ ys, padChars (w + 1) n = ys ++ [digitChar (n % 10)] := by
  induction w with
  | zero =>
    intro n hn
    refine ⟨[], ?_⟩
    have : n % 10 = n := Nat.mod_eq_of_lt (by simpa using hn)
    simp [padChars, Nat.mod_one, this]
  | succ w ih =>
    intro n hn
    obtain ⟨ys, hys⟩ := ih (n % 10 ^ (w + 1)) (Nat.mod_lt _ (Nat.pos_pow_of_pos _ (by norm_num)))
    refine ⟨digitChar (n / 10 ^ (w + 1)) :: ys, ?_⟩
    have : n % 10 ^ (w + 1) % 10 = n % 10 :=
      Nat.mod_mod_of_dvd n (dvd_pow_self 10 (Nat.succ_ne_zero w))
    rw [show padChars (w + 1 + 1) n = digitChar (n / 10 ^ (w + 1)) :: padChars (w + 1) (n % 10 ^ (w + 1)) from rfl,
      hys, this, List.cons_append]

theorem daysInMonth_le (y m : Nat) : daysInMonth y m ≤ 31 := by
  unfold daysInMonth
  split
  · split <;> norm_num
  · split <;> norm_num

theorem valid_bounds (d : DateTime) (h : d.valid = true) :
    d.year < 10 ^ 4 ∧ d.month < 10 ^ 2 ∧ d.day < 10 ^ 2 ∧ d.hour < 10 ^ 2 ∧
    d.minute < 10 ^ 2 ∧ d.second < 10 ^ 2 ∧ d.microsecond < 10 ^ 6 := by
  have hd := daysInMonth_le d.year d.month
  simp only [DateTime.valid, Bool.and_eq_true, decide_eq_true_eq] at h
  norm_num
  omega

theorem expectChar_same (c : Char) (r : List Char) : expectChar c (c :: r) = some r := by
  simp [expectChar]

theorem readDigits_pad0 (w n : Nat) (rest : List Char) (h : n < 10 ^ w) :
    readDigits w 0 (padChars w n ++ rest) = some (n, rest) := by
  simpa using readDigits_pad w n 0 rest h

theorem readDigits_two_split (n : Nat) (hn : n < 100) (rest : List Char) :
    readDigits 2 0 (digitChar (n / 10) :: digitChar (n % 10) :: rest) = some (n, rest) := by
  have h1 : n / 10 < 10 := Nat.div_lt_of_lt_mul (by omega)
  have h2 : n % 10 < 10 := Nat.mod_lt _ (by norm_num)
  obtain ⟨d1, v1, -⟩ := digitChar_props _ h1
  obtain ⟨d2, v2, -⟩ := digitChar_props _ h2
  have := Nat.div_add_mod n 10
  simp only [readDigits, d1, if_true, v1, d2, v2]
  congr 2
  omega

theorem parseHMS_fmt (h mi s us : Nat) (hh : h < 100) (hmi : mi < 100) (hs : s < 100)
    (hus : us < 10 ^ 6) :
    parseHMS (digitChar (h / 10) :: digitChar (h % 10) :: ':' ::
      digitChar (mi / 10) :: digitChar (mi % 10) :: ':' ::
      digitChar (s / 10) :: digitChar (s % 10) ::
      (if us = 0 then ([] : List Char) else '.' :: padChars 6 us)) = some (h, mi, s, us) := by
  by_cases h0 : us = 0
  · subst h0
    simp [parseHMS, readDigits_two_split h hh, readDigits_two_split mi hmi,
      readDigits_two_split s hs]
  · have hlen : (padChars 6 us).length = 6 := padChars_length 6 us
    have hread : readDigits 6 0 (padChars 6 us ++ []) = some (us, []) :=
      readDigits_pad0 6 us [] hus
    rw [List.append_nil] at hread
    simp [parseHMS, readDigits_two_split h hh, readDigits_two_split mi hmi,
      readDigits_two_split s hs, h0, hlen, hread]

theorem fromiso_fmt (sep : Char) (d : DateTime) (hv : d.valid = true) :
    fromisoChars (fmtDateTime sep d) = some d := by
  obtain ⟨b1, b2, b3, b4, b5, b6, b7⟩ := valid_bounds d hv
  have hfmt : fmtDateTime sep d =
      padChars 4 d.year ++ '-' :: (padChars 2 d.month ++ '-' :: (padChars 2 d.day ++ sep ::
        (digitChar (d.hour / 10) :: digitChar (d.hour % 10) :: ':' ::
         digitChar (d.minute / 10) :: digitChar (d.minute % 10) :: ':' ::
         digitChar (d.second / 10) :: digitChar (d.second % 10) ::
         (if d.microsecond = 0 then ([] : List Char) else '.' :: padChars 6 d.microsecond)))) := by
    simp [fmtDateTime, padChars_two, List.append_assoc]
  have hp := parseHMS_fmt d.hour d.minute d.second d.microsecond b4 b5 b6 b7
  have heta : (⟨d.year, d.month, d.day, d.hour, d.minute, d.second, d.microsecond⟩ : DateTime) = d := rfl
  simp only [hfmt, fromisoChars, readDigits_pad0 4 d.year _ b1, expectChar_same,
    readDigits_pad0 2 d.month _ b2, readDigits_pad0 2 d.day _ b3, hp, mkChecked, heta, hv,
    if_true]

theorem fromiso_isoformat (d : DateTime) (hv : d.valid = true) :
    fromisoformat d.isoformat = some d := fromiso_fmt 'T' d hv

theorem fromiso_pyStr (d : DateTime) (hv : d.valid = true) :
    fromisoformat d.pyStr = some d := fromiso_fmt ' ' d hv

theorem dropWhile_append_cons (p : Char → Bool) (xs ys : List Char) (y : Char) (hy : p y = false) :
    (xs ++ y :: ys).dropWhile p = xs.dropWhile p ++ y :: ys := by
  induction xs with
  | nil => simp [List.dropWhile_cons, hy]
  | cons x xs ih => by_cases hx : p x <;> simp [List.dropWhile_cons, hx, ih]

theorem dropWhile_head_false (p : Char → Bool) (c : Char) (cs : List Char) (h : p c = false) :
    (c :: cs).dropWhile p = c :: cs := by
  simp [List.dropWhile_cons, h]

theorem pySplitChar_no_sep (sep : Char) (xs : List Char) (h : sep ∉ xs) :
    pySplitChar sep xs = [xs] := by
  induction xs with
  | nil => rfl
  | cons c cs ih =>
    have h1 : ¬ c = sep := fun hh => h (hh ▸ List.mem_cons_self c cs)
    have h2 : sep ∉ cs := fun hh => h (List.mem_cons_of_mem c hh)
    simp [pySplitChar, h1, ih h2]

theorem pySplitChar_append (sep : Char) (xs ys : List Char) (h : sep ∉ xs) :
    pySplitChar sep (xs ++ sep :: ys) = xs :: pySplitChar sep ys := by
  induction xs with
  | nil => simp [pySplitChar]
  | cons c cs ih =>
    have h1 : ¬ c = sep := fun hh => h (hh ▸ List.mem_cons_self c cs)
    have h2 : sep ∉ cs := fun hh => h (List.mem_cons_of_mem c hh)
    simp [pySplitChar, h1, ih h2]

theorem padChars_not_mem (w n : Nat) (hn : n < 10 ^ w) (c : Char)
    (hc : ∀ k, k < 10 → digitChar k ≠ c) : c ∉ padChars w n := by
  intro hmem
  obtain ⟨k, hk, hck⟩ := padChars_digits w n hn c hmem
  exact hc k hk hck.symm

theorem fmt_not_mem (sep : Char) (d : DateTime) (hv : d.valid = true) (c : Char)
    (hsep : c ≠ sep) (hd : c ≠ '-') (hcl : c ≠ ':') (hdot : c ≠ '.')
    (hdig : ∀ k, k < 10 → digitChar k ≠ c) : c ∉ fmtDateTime sep d := by
  obtain ⟨b1, b2, b3, b4, b5, b6, b7⟩ := valid_bounds d hv
  have p1 := padChars_not_mem 4 d.year b1 c hdig
  have p2 := padChars_not_mem 2 d.month b2 c hdig
  have p3 := padChars_not_mem 2 d.day b3 c hdig
  have p4 := padChars_not_mem 2 d.hour b4 c hdig
  have p5 := padChars_not_mem 2 d.minute b5 c hdig
  have p6 := padChars_not_mem 2 d.second b6 c hdig
  have p7 := padChars_not_mem 6 d.microsecond b7 c hdig
  intro hmem
  rw [fmtDateTime] at hmem
  by_cases h0 : d.microsecond = 0
  · rw [if_pos h0] at hmem
    simp only [List.append_nil, List.mem_append, List.mem_cons, List.not_mem_nil,
      or_false, false_or] at hmem
    tauto
  · rw [if_neg h0] at hmem
    simp only [List.mem_append, List.mem_cons, List.not_mem_nil, or_false, false_or] at hmem
    tauto

theorem fmt_last (sep : Char) (d : DateTime) (hv : d.valid = true) :
    ∃ ys k, k < 10 ∧ fmtDateTime sep d = ys ++ [digitChar k] := by
  obtain ⟨b1, b2, b3, b4, b5, b6, b7⟩ := valid_bounds d hv
  by_cases h0 : d.microsecond = 0
  · obtain ⟨ys, hys⟩ := padChars_last 1 d.second b6
    refine ⟨padChars 4 d.year ++ '-' :: padChars 2 d.month ++ '-' :: padChars 2 d.day ++
      sep :: padChars 2 d.hour ++ ':' :: padChars 2 d.minute ++ ':' :: ys,
      d.second % 10, Nat.mod_lt _ (by norm_num), ?_⟩
    rw [fmtDateTime, if_pos h0, hys]
    simp [List.append_assoc]
  · obtain ⟨ys, hys⟩ := padChars_last 5 d.microsecond b7
    refine ⟨padChars 4 d.year ++ '-' :: padChars 2 d.month ++ '-' :: padChars 2 d.day ++
      sep :: padChars 2 d.hour ++ ':' :: padChars 2 d.minute ++ ':' :: padChars 2 d.second ++
      '.' :: ys, d.microsecond % 10, Nat.mod_lt _ (by norm_num), ?_⟩
    rw [fmtDateTime, if_neg h0, hys]
    simp [List.append_assoc]

theorem fmt_length (sep : Char) (d : DateTime) :
    (fmtDateTime sep d).length = if d.microsecond = 0 then 19 else 26 := by
  by_cases h0 : d.microsecond = 0 <;> simp [fmtDateTime, h0, padChars_length]

theorem mk_fmt_ne_None (sep : Char) (d : DateTime) :
    (⟨fmtDateTime sep d⟩ : String) ≠ "None" := by
  intro h
  have h2 : fmtDateTime sep d = ("None" : String).data := congrArg String.data h
  have h3 := congrArg List.length h2
  rw [fmt_length] at h3
  revert h3
  split <;> decide

theorem reverse_dropWhile_last (A : List Char) (c : Char) (hc : isSpace c = false) :
    ((A ++ [c]).reverse.dropWhile isSpace).reverse = A ++ [c] := by
  rw [List.reverse_append]
  simp only [List.reverse_cons, List.reverse_nil, List.nil_append, List.singleton_append]
  rw [dropWhile_head_false isSpace c _ hc]
  simp

theorem reverse_dropWhile_last_nl (A : List Char) (c : Char) (hc : isSpace c = false) :
    (((A ++ [c]) ++ ['\n']).reverse.dropWhile isSpace).reverse = A ++ [c] := by
  rw [List.reverse_append]
  simp only [List.reverse_cons, List.reverse_nil, List.nil_append, List.singleton_append]
  rw [show ('\n' :: (A ++ [c]).reverse).dropWhile isSpace =
      ((A ++ [c]).reverse).dropWhile isSpace from by
    simp [List.dropWhile_cons, show isSpace '\n' = true from by decide]]
  exact reverse_dropWhile_last A c hc

theorem pyStripData_eq (N R : List Char) (c : Char) (hc : isSpace c = false) (tail : List Char)
    (ht : tail = [] ∨ tail = ['\n']) :
    pyStripData ((N ++ ';' :: (R ++ [c])) ++ tail) =
      N.dropWhile isSpace ++ ';' :: (R ++ [c]) := by
  have hsemi : isSpace ';' = false := by decide
  have hA : N.dropWhile isSpace ++ ';' :: (R ++ [c]) =
      (N.dropWhile isSpace ++ ';' :: R) ++ [c] := by simp
  unfold pyStripData
  rcases ht with rfl | rfl
  · rw [List.append_nil, dropWhile_append_cons isSpace N _ ';' hsemi, hA,
      reverse_dropWhile_last _ c hc]
  · rw [show (N ++ ';' :: (R ++ [c])) ++ ['\n'] = N ++ ';' :: (R ++ [c] ++ ['\n']) from by simp,
      dropWhile_append_cons isSpace N _ ';' hsemi,
      show List.dropWhile isSpace N ++ ';' :: (R ++ [c] ++ ['\n']) =
        ((List.dropWhile isSpace N ++ ';' :: R) ++ [c]) ++ ['\n'] from by simp,
      reverse_dropWhile_last_nl _ c hc]
    exact hA.symm

theorem semi_data : (";" : String).data = [';'] := rfl

theorem to_line_data (t : Task) :
    (Task.to_line t).data =
      t.nome.data ++ ';' :: (t.prioridade.data ++ ';' :: (t.categoria.data ++ ';' ::
        (fmtDateTime 'T' t.data_criacao ++ ';' ::
          ((if t.concluida then ("True" : String) else "False").data ++ ';' ::
            (strOptDT t.data_conclusao).data)))) := by
  simp [Task.to_line, String.data_append, DateTime.isoformat, semi_data, List.append_assoc]

/-- What `from_line` recovers from a serialized task, possibly followed by
the newline written by `salvar_tarefas`: the same record except that
leading whitespace of the name is stripped away (with the whole line) and
the priority goes through the lowercasing constructor again. -/
theorem from_line_to_line (t : Task) (tail : List Char) (ht : tail = [] ∨ tail = ['\n'])
    (h1 : ';' ∉ t.nome.data) (h2 : ';' ∉ t.prioridade.data) (h3 : ';' ∉ t.categoria.data)
    (h6 : t.data_criacao.valid = true)
    (h7 : ∀ d, t.data_conclusao = some d → d.valid = true) :
    Task.from_line ⟨(Task.to_line t).data ++ tail⟩ =
      some { t with nome := ⟨t.nome.data.dropWhile isSpace⟩,
                    prioridade := pyLower t.prioridade } := by
  obtain ⟨nome, prio, cat, dc, conc, dcon⟩ := t
  simp only at h1 h2 h3 h6 h7
  obtain ⟨R0, c0, hc0, hD⟩ : ∃ R0 c0, isSpace c0 = false ∧ (strOptDT dcon).data = R0 ++ [c0] := by
    cases dcon with
    | none => exact ⟨['N', 'o', 'n'], 'e', by decide, by decide⟩
    | some d =>
      obtain ⟨ys, k, hk, hys⟩ := fmt_last ' ' d (h7 d rfl)
      exact ⟨ys, digitChar k, (digitChar_props k hk).2.2.1, by simp [strOptDT, DateTime.pyStr, hys]⟩
  have hDm : ';' ∉ (strOptDT dcon).data := by
    cases dcon with
    | none => decide
    | some d =>
      exact fmt_not_mem ' ' d (h7 d rfl) ';' (by decide) (by decide) (by decide) (by decide)
        (by decide)
  have hD0 : ';' ∉ R0 ++ [c0] := hD ▸ hDm
  have hn' : ';' ∉ nome.data.dropWhile isSpace :=
    fun hmem => h1 ((List.dropWhile_sublist isSpace).subset hmem)
  have hF : ';' ∉ fmtDateTime 'T' dc :=
    fmt_not_mem 'T' dc h6 ';' (by decide) (by decide) (by decide) (by decide) (by decide)
  have hB : ';' ∉ ((if conc then ("True" : String) else "False").data) := by
    cases conc <;> decide
  have hps : pyStripData ((Task.to_line ⟨nome, prio, cat, dc, conc, dcon⟩).data ++ tail) =
      nome.data.dropWhile isSpace ++ ';' ::
        ((prio.data ++ ';' :: (cat.data ++ ';' :: (fmtDateTime 'T' dc ++ ';' ::
          ((if conc then ("True" : String) else "False").data ++ ';' :: R0)))) ++ [c0]) := by
    rw [show (Task.to_line ⟨nome, prio, cat, dc, conc, dcon⟩).data ++ tail =
        (nome.data ++ ';' ::
          ((prio.data ++ ';' :: (cat.data ++ ';' :: (fmtDateTime 'T' dc ++ ';' ::
            ((if conc then ("True" : String) else "False").data ++ ';' :: R0)))) ++ [c0])) ++ tail
        from by rw [to_line_data]; simp [hD, List.append_assoc]]
    exact pyStripData_eq nome.data _ c0 hc0 tail ht
  have hsplitchars : pySplitChar ';' (nome.data.dropWhile isSpace ++ ';' ::
      ((prio.data ++ ';' :: (cat.data ++ ';' :: (fmtDateTime 'T' dc ++ ';' ::
        ((if conc then ("True" : String) else "False").data ++ ';' :: R0)))) ++ [c0])) =
      [nome.data.dropWhile isSpace, prio.data, cat.data, fmtDateTime 'T' dc,
        (if conc then ("True" : String) else "False").data, R0 ++ [c0]] := by
    rw [pySplitChar_append ';' _ _ hn']
    rw [show (prio.data ++ ';' :: (cat.data ++ ';' :: (fmtDateTime 'T' dc ++ ';' ::
        ((if conc then ("True" : String) else "False").data ++ ';' :: R0)))) ++ [c0] =
      prio.data ++ ';' :: (cat.data ++ ';' :: (fmtDateTime 'T' dc ++ ';' ::
        ((if conc then ("True" : String) else "False").data ++ ';' :: (R0 ++ [c0]))))
      from by simp [List.append_assoc]]
    rw [pySplitChar_append ';' _ _ h2, pySplitChar_append ';' _ _ h3,
      pySplitChar_append ';' _ _ hF, pySplitChar_append ';' _ _ hB,
      pySplitChar_no_sep ';' _ hD0]
  have hsplit : splitSemi (pyStrip ⟨(Task.to_line ⟨nome, prio, cat, dc, conc, dcon⟩).data ++ tail⟩) =
      [⟨nome.data.dropWhile isSpace⟩, prio, cat, ⟨fmtDateTime 'T' dc⟩,
        (if conc then ("True" : String) else "False"), strOptDT dcon] := by
    show (pySplitChar ';'
        (pyStripData ((Task.to_line ⟨nome, prio, cat, dc, conc, dcon⟩).data ++ tail))).map
        (fun cs => (⟨cs⟩ : String)) = _
    rw [hps, hsplitchars]
    simp only [List.map_cons, List.map_nil]
    rw [show (⟨R0 ++ [c0]⟩ : String) = strOptDT dcon from by rw [← hD]]
  have hiso : fromisoformat ⟨fmtDateTime 'T' dc⟩ = some dc := fromiso_fmt 'T' dc h6
  rw [Task.from_line, hsplit]
  simp only [hiso]
  cases dcon with
  | none =>
    rw [if_pos (show strOptDT none = "None" from rfl)]
    cases conc <;> rfl
  | some d =>
    rw [if_neg (show ¬ (strOptDT (some d) = "None") from mk_fmt_ne_None ' ' d)]
    rw [show fromisoformat (strOptDT (some d)) = some d from fromiso_pyStr d (h7 d rfl)]
    cases conc <;> rfl

/-- Whether the first character of a string, if any, is not whitespace
(letting `strip` leave the serialized name intact). -/
def headOK (s : String) : Bool :=
  match s.data with
  | [] => true
  | c :: _ => ! isSpace c

/-- A record whose fields survive the line format: no `;` in the string
fields, and the name does not begin with whitespace. -/
def cexTaskC1 : Task := ⟨" a", "baixa", "c", ⟨2024, 1, 2, 3, 4, 5, 0⟩, false, none⟩

/-- C1, counterexample: the record named `" a"` has no `;` in any field,
its priority is an enumerated lowercase value, it satisfies the
completion invariant, and both timestamps are in range, yet
`Deserialize(Serialize(t))` is not `t`: `from_line` strips the line, so
the name comes back as `"a"`. -/
theorem C1_counterexample :
    (';' ∉ cexTaskC1.nome.data ∧ ';' ∉ cexTaskC1.prioridade.data ∧
      ';' ∉ cexTaskC1.categoria.data) ∧
    cexTaskC1.prioridade ∈ (["baixa", "média", "alta"] : List String) ∧
    (cexTaskC1.concluida = true ↔ cexTaskC1.data_conclusao ≠ none) ∧
    cexTaskC1.data_criacao.valid = true ∧
    Task.from_line (Task.to_line cexTaskC1) ≠ some cexTaskC1 := by decide

/-- C1 (amended): for a valid record whose fields contain no `;`, whose
priority is already lowercase, whose timestamps are in range, and whose
name does not begin with whitespace, `Deserialize(Serialize(t))`
reproduces `t` in all six attributes. -/
theorem C1_round_trip (t : Task)
    (hs1 : ';' ∉ t.nome.data) (hs2 : ';' ∉ t.prioridade.data) (hs3 : ';' ∉ t.categoria.data)
    (hhead : headOK t.nome = true)
    (hlow : pyLower t.prioridade = t.prioridade)
    (hcreated : t.data_criacao.valid = true)
    (hdone : ∀ d, t.data_conclusao = some d → d.valid = true) :
    Task.from_line (Task.to_line t) = some t := by
  have key := from_line_to_line t [] (Or.inl rfl) hs1 hs2 hs3 hcreated hdone
  rw [List.append_nil] at key
  have hdrop : t.nome.data.dropWhile isSpace = t.nome.data := by
    rcases hnd : t.nome.data with _ | ⟨c, cs⟩
    · rfl
    · refine dropWhile_head_false isSpace c cs ?_
      unfold headOK at hhead
      rw [hnd] at hhead
      simpa using hhead
  rw [hdrop, hlow] at key
  have heta : ({ t with nome := ⟨t.nome.data⟩, prioridade := t.prioridade } : Task) = t := by
    cases t
    rfl
  rw [heta] at key
  exact key

/-- C1 witness: a concrete clean record round-trips. -/
theorem C1_round_trip_witness :
    Task.from_line (Task.to_line ⟨"X", "baixa", "c", ⟨2024, 1, 2, 3, 4, 5, 0⟩, false, none⟩) =
      some ⟨"X", "baixa", "c", ⟨2024, 1, 2, 3, 4, 5, 0⟩, false, none⟩ :=
  C1_round_trip _ (by decide) (by decide) (by decide) (by decide) (by decide) (by decide)
    (fun d h => Option.noConfusion h)

/-- C2, counterexample: a line with exactly six fields whose boolean
field is `Maybe` (neither `True` nor `False`) is accepted by
`from_line` — the flag is simply parsed as false — while the claim says
it must fail with a ParseError. -/
theorem C2_counterexample :
    (splitSemi (pyStrip "a;b;c;2024-01-02 03:04:05;Maybe;None")).length = 6 ∧
    (splitSemi (pyStrip "a;b;c;2024-01-02 03:04:05;Maybe;None")).get? 4 = some "Maybe" ∧
    ("Maybe" ≠ "True" ∧ "Maybe" ≠ "False") ∧
    Task.from_line "a;b;c;2024-01-02 03:04:05;Maybe;None" =
      some ⟨"a", "b", "c", ⟨2024, 1, 2, 3, 4, 5, 0⟩, false, none⟩ := by decide

/-- Evaluation of `from_line` once the stripped line is known to split
into exactly six fields. -/
theorem from_line_six (linha : String) (f1 f2 f3 f4 f5 f6 : String)
    (hs : splitSemi (pyStrip linha) = [f1, f2, f3, f4, f5, f6]) :
    Task.from_line linha =
      (match fromisoformat f4 with
      | none => none
      | some dc =>
        if f6 = "None" then
          some ⟨f1, pyLower f2, f3, dc, decide (f5 = "True"), none⟩
        else
          match fromisoformat f6 with
          | none => none
          | some dcon => some ⟨f1, pyLower f2, f3, dc, decide (f5 = "True"), some dcon⟩) := by
  rw [Task.from_line, hs]
  rcases h4 : fromisoformat f4 with _ | dc
  · simp [h4, Task.init]
  · simp [h4, Task.init]

/-- Evaluation of `from_line` when the stripped line does not split into
exactly six fields: the tuple unpacking raises, i.e. the parse fails. -/
theorem from_line_not_six (linha : String)
    (hs : (splitSemi (pyStrip linha)).length ≠ 6) : Task.from_line linha = none := by
  rcases h : splitSemi (pyStrip linha) with
    _ | ⟨f1, _ | ⟨f2, _ | ⟨f3, _ | ⟨f4, _ | ⟨f5, _ | ⟨f6, _ | ⟨f7, rest⟩⟩⟩⟩⟩⟩⟩ <;>
    rw [Task.from_line, h] <;> first
      | rfl
      | (exact absurd (by rw [h]; rfl) hs)

/-- C2 (amended): `from_line` fails exactly when the stripped line does
not split into six `;`-fields, or the creation timestamp does not parse,
or the completion field is neither the text `None` nor a parseable
timestamp.  The boolean field never causes a failure: whenever the line
parses, the flag is the comparison of the fifth field with the text
`True` (any other content yields false). -/
theorem C2_parse_failure (linha : String) :
    (Task.from_line linha = none ↔
      (splitSemi (pyStrip linha)).length ≠ 6 ∨
      ∃ f1 f2 f3 f4 f5 f6, splitSemi (pyStrip linha) = [f1, f2, f3, f4, f5, f6] ∧
        (fromisoformat f4 = none ∨ (f6 ≠ "None" ∧ fromisoformat f6 = none))) ∧
    (∀ f1 f2 f3 f4 f5 f6 t, splitSemi (pyStrip linha) = [f1, f2, f3, f4, f5, f6] →
      Task.from_line linha = some t → t.concluida = decide (f5 = "True")) := by
  constructor
  · by_cases hlen : (splitSemi (pyStrip linha)).length = 6
    · obtain ⟨f1, f2, f3, f4, f5, f6, hs⟩ :
          ∃ f1 f2 f3 f4 f5 f6, splitSemi (pyStrip linha) = [f1, f2, f3, f4, f5, f6] := by
        rcases h : splitSemi (pyStrip linha) with
          _ | ⟨f1, _ | ⟨f2, _ | ⟨f3, _ | ⟨f4, _ | ⟨f5, _ | ⟨f6, _ | ⟨f7, rest⟩⟩⟩⟩⟩⟩⟩ <;>
          rw [h] at hlen <;> simp at hlen
        exact ⟨f1, f2, f3, f4, f5, f6, rfl⟩
      rw [from_line_six linha f1 f2 f3 f4 f5 f6 hs, hs]
      constructor
      · intro hnone
        refine Or.inr ⟨f1, f2, f3, f4, f5, f6, rfl, ?_⟩
        rcases h4 : fromisoformat f4 with _ | dc
        · exact Or.inl rfl
        · simp only [h4] at hnone
          by_cases h6 : f6 = "None"
          · rw [if_pos h6] at hnone
            cases hnone
          · rw [if_neg h6] at hnone
            rcases h6p : fromisoformat f6 with _ | dcon
            · exact Or.inr ⟨h6, rfl⟩
            · simp only [h6p] at hnone
              cases hnone
      · rintro (hbad | ⟨g1, g2, g3, g4, g5, g6, hg, hbad⟩)
        · exact absurd (by rfl) hbad
        · injection hg with e1 hg; injection hg with e2 hg; injection hg with e3 hg
          injection hg with e4 hg; injection hg with e5 hg; injection hg with e6 hg
          subst e4; subst e6
          rcases hbad with hbad | ⟨hne, hbad⟩
          · simp only [hbad]
          · rcases h4 : fromisoformat f4 with _ | dc <;>
              simp only [h4, hbad, if_neg hne]
    · rw [from_line_not_six linha hlen]
      simp only [eq_self_iff_true, true_iff]
      exact Or.inl hlen
  · intro f1 f2 f3 f4 f5 f6 t hs hsome
    rw [from_line_six linha f1 f2 f3 f4 f5 f6 hs] at hsome
    rcases h4 : fromisoformat f4 with _ | dc
    · simp only [h4] at hsome
      cases hsome
    · simp only [h4] at hsome
      by_cases h6 : f6 = "None"
      · rw [if_pos h6] at hsome
        have := Option.some.inj hsome
        rw [← this]
      · rw [if_neg h6] at hsome
        rcases h6p : fromisoformat f6 with _ | dcon
        · simp only [h6p] at hsome
          cases hsome
        · simp only [h6p] at hsome
          have := Option.some.inj hsome
          rw [← this]

/-- C2 witness: the failure characterization evaluated at a line that
does not split into six fields. -/
theorem C2_parse_failure_witness : Task.from_line "garbage" = none :=
  (C2_parse_failure "garbage").1.mpr (Or.inl (by decide))

/-- C10: whenever `from_line` succeeds, the priority of the produced
record is the lowercased second field of the stripped, `;`-split line,
because the record is built through the `Task` constructor, which
lowercases the priority (and `from_line` never reassigns it). -/
theorem C10_lowercase (linha : String) (t : Task) (h : Task.from_line linha = some t) :
    ∃ f1 f2 f3 f4 f5 f6, splitSemi (pyStrip linha) = [f1, f2, f3, f4, f5, f6] ∧
      t.prioridade = pyLower f2 := by
  by_cases hlen : (splitSemi (pyStrip linha)).length = 6
  · obtain ⟨f1, f2, f3, f4, f5, f6, hs⟩ :
        ∃ f1 f2 f3 f4 f5 f6, splitSemi (pyStrip linha) = [f1, f2, f3, f4, f5, f6] := by
      rcases hh : splitSemi (pyStrip linha) with
        _ | ⟨f1, _ | ⟨f2, _ | ⟨f3, _ | ⟨f4, _ | ⟨f5, _ | ⟨f6, _ | ⟨f7, rest⟩⟩⟩⟩⟩⟩⟩ <;>
        rw [hh] at hlen <;> simp at hlen
      exact ⟨f1, f2, f3, f4, f5, f6, rfl⟩
    refine ⟨f1, f2, f3, f4, f5, f6, hs, ?_⟩
    rw [from_line_six linha f1 f2 f3 f4 f5 f6 hs] at h
    rcases h4 : fromisoformat f4 with _ | dc
    · simp only [h4] at h
      cases h
    · simp only [h4] at h
      by_cases h6 : f6 = "None"
      · rw [if_pos h6] at h
        have := Option.some.inj h
        rw [← this]
      · rw [if_neg h6] at h
        rcases h6p : fromisoformat f6 with _ | dcon
        · simp only [h6p] at h
          cases h
        · simp only [h6p] at h
          have := Option.some.inj h
          rw [← this]
  · rw [from_line_not_six linha hlen] at h
    cases h

/-- C10 witness: a line with priority field `ALTA` parses to a record
with priority `alta`. -/
theorem C10_lowercase_witness :
    ∃ f1 f2 f3 f4 f5 f6,
      splitSemi (pyStrip "a;ALTA;c;2024-01-02 03:04:05;False;None") = [f1, f2, f3, f4, f5, f6] ∧
      (⟨"a", "alta", "c", ⟨2024, 1, 2, 3, 4, 5, 0⟩, false, none⟩ : Task).prioridade = pyLower f2 :=
  C10_lowercase "a;ALTA;c;2024-01-02 03:04:05;False;None" _ (by decide)

theorem find_decomp (p : Task → Bool) (l : List Task) (t : Task) (h : l.find? p = some t) :
    ∃ pre post, l = pre ++ t :: post ∧ (∀ u ∈ pre, p u = false) ∧ p t = true := by
  induction l with
  | nil => cases h
  | cons x xs ih =>
    by_cases hx : p x
    · rw [List.find?_cons_of_pos _ hx] at h
      injection h with h
      subst h
      exact ⟨[], xs, rfl, by simp, hx⟩
    · rw [List.find?_cons_of_neg _ (by simpa using hx)] at h
      obtain ⟨pre, post, hl, hpre, hpt⟩ := ih h
      refine ⟨x :: pre, post, by rw [hl, List.cons_append], ?_, hpt⟩
      intro u hu
      rcases List.mem_cons.mp hu with rfl | hu
      · simpa using hx
      · exact hpre u hu

theorem completeFirst_none (nome : String) (now : DateTime) (ts : List Task)
    (h : ∀ t ∈ ts, ¬ t.nome = nome) : completeFirst nome now ts = none := by
  induction ts with
  | nil => rfl
  | cons t ts ih =>
    rw [completeFirst, if_neg (h t (List.mem_cons_self _ _)),
      ih (fun u hu => h u (List.mem_cons_of_mem _ hu))]
    rfl

theorem completeFirst_decomp (nome : String) (now : DateTime) (pre post : List Task) (t : Task)
    (hpre : ∀ u ∈ pre, ¬ u.nome = nome) (ht : t.nome = nome) :
    completeFirst nome now (pre ++ t :: post) = some (pre ++ t.concluir now :: post) := by
  induction pre with
  | nil => simp [completeFirst, ht]
  | cons x xs ih =>
    rw [List.cons_append, completeFirst, if_neg (hpre x (List.mem_cons_self _ _)),
      ih (fun u hu => hpre u (List.mem_cons_of_mem _ hu))]
    rfl

theorem encontrar_decomp (m : TaskManager) (nome : String) (t : Task)
    (h : encontrar_tarefa m nome = some t) :
    ∃ pre post, m.tasks = pre ++ t :: post ∧ (∀ u ∈ pre, ¬ u.nome = nome) ∧ t.nome = nome := by
  obtain ⟨pre, post, hl, hpre, hpt⟩ := find_decomp _ m.tasks t h
  refine ⟨pre, post, hl, ?_, of_decide_eq_true hpt⟩
  intro u hu
  exact of_decide_eq_false (hpre u hu)

/-- C9: when several tasks share the looked-up name (reachable by loading
a file with duplicate names), `encontrar_tarefa` returns the first match
in list order, and `concluir_tarefa` completes exactly that first match,
leaving every later task — including later tasks of the same name — as it
was. -/
theorem C9_first_match (pre post : List Task) (t : Task) (nome : String) (now : DateTime)
    (hpre : ∀ u ∈ pre, ¬ u.nome = nome) (ht : t.nome = nome) :
    encontrar_tarefa ⟨pre ++ t :: post⟩ nome = some t ∧
    concluir_tarefa ⟨pre ++ t :: post⟩ nome now =
      .ok (⟨pre ++ t.concluir now :: post⟩, salvar_tarefas ⟨pre ++ t.concluir now :: post⟩) := by
  constructor
  · unfold encontrar_tarefa
    have hnone : pre.find? (fun u => decide (u.nome = nome)) = none :=
      List.find?_eq_none.mpr fun u hu => by simpa using hpre u hu
    calc (pre ++ t :: post).find? (fun u => decide (u.nome = nome))
        = ((pre.find? fun u => decide (u.nome = nome)).or
            ((t :: post).find? fun u => decide (u.nome = nome))) := List.find?_append
      _ = some t := by
        rw [hnone]
        have hcons : List.find? (fun u => decide (u.nome = nome)) (t :: post) = some t :=
          List.find?_cons_of_pos _ (by simp [ht])
        rw [hcons]
        rfl
  · unfold concluir_tarefa
    rw [completeFirst_decomp nome now pre post t hpre ht]

/-- C9 witness: with two tasks named `dup` behind a non-matching head,
find returns the first `dup` and complete updates only it. -/
theorem C9_first_match_witness :
    encontrar_tarefa ⟨[⟨"x", "alta", "c", ⟨2024, 1, 2, 3, 4, 5, 0⟩, false, none⟩,
        ⟨"dup", "alta", "c", ⟨2024, 1, 2, 3, 4, 5, 0⟩, false, none⟩,
        ⟨"dup", "baixa", "d", ⟨2024, 1, 2, 3, 4, 5, 0⟩, false, none⟩]⟩ "dup" =
      some ⟨"dup", "alta", "c", ⟨2024, 1, 2, 3, 4, 5, 0⟩, false, none⟩ ∧
    concluir_tarefa ⟨[⟨"x", "alta", "c", ⟨2024, 1, 2, 3, 4, 5, 0⟩, false, none⟩,
        ⟨"dup", "alta", "c", ⟨2024, 1, 2, 3, 4, 5, 0⟩, false, none⟩,
        ⟨"dup", "baixa", "d", ⟨2024, 1, 2, 3, 4, 5, 0⟩, false, none⟩]⟩ "dup" ⟨2024, 1, 2, 4, 0, 0, 0⟩ =
      .ok (⟨[⟨"x", "alta", "c", ⟨2024, 1, 2, 3, 4, 5, 0⟩, false, none⟩,
        ⟨"dup", "alta", "c", ⟨2024, 1, 2, 3, 4, 5, 0⟩, true, some ⟨2024, 1, 2, 4, 0, 0, 0⟩⟩,
        ⟨"dup", "baixa", "d", ⟨2024, 1, 2, 3, 4, 5, 0⟩, false, none⟩]⟩,
        salvar_tarefas ⟨[⟨"x", "alta", "c", ⟨2024, 1, 2, 3, 4, 5, 0⟩, false, none⟩,
          ⟨"dup", "alta", "c", ⟨2024, 1, 2, 3, 4, 5, 0⟩, true, some ⟨2024, 1, 2, 4, 0, 0, 0⟩⟩,
          ⟨"dup", "baixa", "d", ⟨2024, 1, 2, 3, 4, 5, 0⟩, false, none⟩]⟩) :=
  C9_first_match [⟨"x", "alta", "c", ⟨2024, 1, 2, 3, 4, 5, 0⟩, false, none⟩]
    [⟨"dup", "baixa", "d", ⟨2024, 1, 2, 3, 4, 5, 0⟩, false, none⟩]
    ⟨"dup", "alta", "c", ⟨2024, 1, 2, 3, 4, 5, 0⟩, false, none⟩ "dup" ⟨2024, 1, 2, 4, 0, 0, 0⟩
    (by decide) (by decide)

/-- C6: `concluir_tarefa` fails with NotFoundError when no task has the
given name (the failed lookup raises before any mutation, so the store
and file are untouched).  When the lookup finds a task, the operation
succeeds, persists, and replaces that task by its completed version:
flag set, completion timestamp the current clock (hence non-null), so
that the updated task is in the completed listing and not in the pending
listing.  A second call with a later-or-equal clock succeeds again and
overwrites the completion timestamp with the new, later-or-equal one. -/
theorem C6_complete (m : TaskManager) (nome : String) (now now2 : DateTime) :
    ((∀ t ∈ m.tasks, ¬ t.nome = nome) → concluir_tarefa m nome now = .error .notFound) ∧
    (∀ t, encontrar_tarefa m nome = some t →
      ∃ m1, concluir_tarefa m nome now = .ok (m1, salvar_tarefas m1) ∧
        t.concluir now ∈ m1.tasks ∧
        (t.concluir now).concluida = true ∧
        (t.concluir now).data_conclusao = some now ∧
        t.concluir now ∈ listar_tarefas m1 (some true) ∧
        t.concluir now ∉ listar_tarefas m1 (some false) ∧
        (dtLe now now2 = true →
          ∃ m2, concluir_tarefa m1 nome now2 = .ok (m2, salvar_tarefas m2) ∧
            t.concluir now2 ∈ m2.tasks ∧
            (t.concluir now2).data_conclusao = some now2 ∧ dtLe now now2 = true)) := by
  constructor
  · intro h
    unfold concluir_tarefa
    rw [completeFirst_none nome now m.tasks h]
  · intro t hfind
    obtain ⟨pre, post, hl, hpre, ht⟩ := encontrar_decomp m nome t hfind
    refine ⟨⟨pre ++ t.concluir now :: post⟩, ?_, ?_, rfl, rfl, ?_, ?_, ?_⟩
    · unfold concluir_tarefa
      rw [hl, completeFirst_decomp nome now pre post t hpre ht]
    · exact List.mem_append_right pre (List.mem_cons_self _ _)
    · refine List.mem_filter.mpr ⟨List.mem_append_right pre (List.mem_cons_self _ _), ?_⟩
      rfl
    · intro hmem
      have := (List.mem_filter.mp hmem).2
      simp [Task.concluir] at this
    · intro hle
      refine ⟨⟨pre ++ t.concluir now2 :: post⟩, ?_, ?_, rfl, hle⟩
      · unfold concluir_tarefa
        have : completeFirst nome now2 (pre ++ t.concluir now :: post) =
            some (pre ++ (t.concluir now).concluir now2 :: post) :=
          completeFirst_decomp nome now2 pre post (t.concluir now) hpre ht
        rw [this]
        rfl
      · exact List.mem_append_right pre (List.mem_cons_self _ _)

/-- C6 witness: completing on the empty store is NotFound, and completing
the only task of a one-task store moves it to the completed listing. -/
theorem C6_complete_witness :
    concluir_tarefa ⟨[]⟩ "X" ⟨2024, 1, 2, 4, 0, 0, 0⟩ = .error .notFound ∧
    ∃ m1, concluir_tarefa ⟨[⟨"X", "alta", "c", ⟨2024, 1, 2, 3, 4, 5, 0⟩, false, none⟩]⟩ "X"
        ⟨2024, 1, 2, 4, 0, 0, 0⟩ = .ok (m1, salvar_tarefas m1) ∧
      Task.concluir ⟨"X", "alta", "c", ⟨2024, 1, 2, 3, 4, 5, 0⟩, false, none⟩
        ⟨2024, 1, 2, 4, 0, 0, 0⟩ ∈ m1.tasks ∧
      (Task.concluir ⟨"X", "alta", "c", ⟨2024, 1, 2, 3, 4, 5, 0⟩, false, none⟩
        ⟨2024, 1, 2, 4, 0, 0, 0⟩).concluida = true ∧
      (Task.concluir ⟨"X", "alta", "c", ⟨2024, 1, 2, 3, 4, 5, 0⟩, false, none⟩
        ⟨2024, 1, 2, 4, 0, 0, 0⟩).data_conclusao = some ⟨2024, 1, 2, 4, 0, 0, 0⟩ ∧
      Task.concluir ⟨"X", "alta", "c", ⟨2024, 1, 2, 3, 4, 5, 0⟩, false, none⟩
        ⟨2024, 1, 2, 4, 0, 0, 0⟩ ∈
          listar_tarefas m1 (some true) ∧
      Task.concluir ⟨"X", "alta", "c", ⟨2024, 1, 2, 3, 4, 5, 0⟩, false, none⟩
        ⟨2024, 1, 2, 4, 0, 0, 0⟩ ∉
          listar_tarefas m1 (some false) ∧
      (dtLe ⟨2024, 1, 2, 4, 0, 0, 0⟩ ⟨2024, 1, 2, 5, 0, 0, 0⟩ = true →
        ∃ m2, concluir_tarefa m1 "X" ⟨2024, 1, 2, 5, 0, 0, 0⟩ = .ok (m2, salvar_tarefas m2) ∧
          Task.concluir ⟨"X", "alta", "c", ⟨2024, 1, 2, 3, 4, 5, 0⟩, false, none⟩
            ⟨2024, 1, 2, 5, 0, 0, 0⟩ ∈ m2.tasks ∧
          (Task.concluir ⟨"X", "alta", "c", ⟨2024, 1, 2, 3, 4, 5, 0⟩, false, none⟩
            ⟨2024, 1, 2, 5, 0, 0, 0⟩).data_conclusao = some ⟨2024, 1, 2, 5, 0, 0, 0⟩ ∧
          dtLe ⟨2024, 1, 2, 4, 0, 0, 0⟩ ⟨2024, 1, 2, 5, 0, 0, 0⟩ = true) :=
  ⟨(C6_complete ⟨[]⟩ "X" ⟨2024, 1, 2, 4, 0, 0, 0⟩ ⟨2024, 1, 2, 5, 0, 0, 0⟩).1
      (fun t ht => absurd ht (List.not_mem_nil t)),
    (C6_complete ⟨[⟨"X", "alta", "c", ⟨2024, 1, 2, 3, 4, 5, 0⟩, false, none⟩]⟩ "X"
      ⟨2024, 1, 2, 4, 0, 0, 0⟩ ⟨2024, 1, 2, 5, 0, 0, 0⟩).2
      ⟨"X", "alta", "c", ⟨2024, 1, 2, 3, 4, 5, 0⟩, false, none⟩ (by decide)⟩

/-- The three concrete tasks of the filter-correctness scenario:
A completed, B and C pending, inserted in the order A, B, C. -/
def taskA : Task := ⟨"A", "alta", "c", ⟨2024, 1, 2, 3, 4, 5, 0⟩, true, some ⟨2024, 1, 2, 4, 0, 0, 0⟩⟩

/-- Second scenario task, pending. -/
def taskB : Task := ⟨"B", "baixa", "c", ⟨2024, 1, 2, 3, 4, 6, 0⟩, false, none⟩

/-- Third scenario task, pending. -/
def taskC : Task := ⟨"C", "média", "c", ⟨2024, 1, 2, 3, 4, 7, 0⟩, false, none⟩

/-- C7: `listar_tarefas` with no filter returns the task list itself; the
pending filter returns exactly the tasks with the flag unset and the
completed filter exactly those with it set, in list (insertion) order —
it is a pure read, a `filter` of the list, and the store is left
untouched.  On the concrete scenario A(completed), B(pending),
C(pending): pending gives [B, C] and completed gives [A]. -/
theorem C7_filter :
    (∀ m : TaskManager,
      listar_tarefas m none = m.tasks ∧
      listar_tarefas m (some false) = m.tasks.filter (fun t => ! t.concluida) ∧
      listar_tarefas m (some true) = m.tasks.filter (fun t => t.concluida)) ∧
    listar_tarefas ⟨[taskA, taskB, taskC]⟩ (some false) = [taskB, taskC] ∧
    listar_tarefas ⟨[taskA, taskB, taskC]⟩ (some true) = [taskA] ∧
    listar_tarefas ⟨[taskA, taskB, taskC]⟩ none = [taskA, taskB, taskC] := by
  refine ⟨fun m => ⟨?_, ?_, ?_⟩, by decide, by decide, by decide⟩
  · simp [listar_tarefas]
  · unfold listar_tarefas
    exact List.filter_congr fun t _ => by cases ht : t.concluida <;> simp [ht]
  · unfold listar_tarefas
    exact List.filter_congr fun t _ => by cases ht : t.concluida <;> simp [ht]

/-- C5: `adicionar_tarefa` fails with ValidationError when the lowercased
priority is not in the enumerated set (in the source, the set is the
Portuguese `{baixa, média, alta}`), fails with DuplicateError when a task
with exactly that name already exists, and in both failure branches it
raises before any mutation, so the in-memory list and the backing file
are unchanged (the error result carries no successor state).  After a
successful add of name `X`, the store holds exactly one task named `X`,
and a second add of `X` with any priority, category and clock fails. -/
theorem C5_add (m : TaskManager) (nome prioridade categoria : String) (now : DateTime) :
    ((["baixa", "média", "alta"] : List String).contains (pyLower prioridade) = false →
      adicionar_tarefa m nome prioridade categoria now = .error .validation) ∧
    ((["baixa", "média", "alta"] : List String).contains (pyLower prioridade) = true →
      (∃ t ∈ m.tasks, t.nome = nome) →
      adicionar_tarefa m nome prioridade categoria now = .error .duplicate) ∧
    (∀ m' f, adicionar_tarefa m nome prioridade categoria now = .ok (m', f) →
      (m'.tasks.countP fun t => decide (t.nome = nome)) = 1 ∧
      ∀ p2 c2 (now2 : DateTime), ∃ e, adicionar_tarefa m' nome p2 c2 now2 = .error e) := by
  refine ⟨?_, ?_, ?_⟩
  · intro hval
    have hcond : ¬ ((["baixa", "média", "alta"] : List String).contains (pyLower prioridade)
        = true) := by
      rw [hval]
      exact Bool.false_ne_true
    unfold adicionar_tarefa
    rw [if_pos hcond]
  · intro hval hdup
    have hany : (m.tasks.any fun t => decide (t.nome = nome)) = true := by
      refine List.any_eq_true.mpr ?_
      obtain ⟨t, ht, hteq⟩ := hdup
      exact ⟨t, ht, decide_eq_true hteq⟩
    unfold adicionar_tarefa
    rw [if_neg (not_not_intro hval), if_pos hany]
  · intro m' f hok
    unfold adicionar_tarefa at hok
    by_cases hval : (["baixa", "média", "alta"] : List String).contains (pyLower prioridade) = true
    · rw [if_neg (not_not_intro hval)] at hok
      by_cases hdup : (m.tasks.any fun t => decide (t.nome = nome)) = true
      · rw [if_pos hdup] at hok
        cases hok
      · rw [if_neg hdup] at hok
        injection hok with hok
        injection hok with hok1 hok2
        have hanyf : (m.tasks.any fun t => decide (t.nome = nome)) = false :=
          Bool.eq_false_iff.mpr hdup
        have hcount0 : (m.tasks.countP fun t => decide (t.nome = nome)) = 0 := by
          refine List.countP_eq_zero.mpr ?_
          intro t ht
          exact List.any_eq_false.mp hanyf t ht
        have hm' : m'.tasks = m.tasks ++ [Task.init nome prioridade categoria now] := by
          rw [← hok1]
        constructor
        · rw [hm', List.countP_append, hcount0]
          simp [Task.init]
        · intro p2 c2 now2
          by_cases hv2 : (["baixa", "média", "alta"] : List String).contains (pyLower p2) = true
          · refine ⟨.duplicate, ?_⟩
            have hany2 : (m'.tasks.any fun t => decide (t.nome = nome)) = true := by
              refine List.any_eq_true.mpr
                ⟨Task.init nome prioridade categoria now, ?_, by simp [Task.init]⟩
              rw [hm']
              exact List.mem_append_right _ (List.mem_cons_self _ _)
            unfold adicionar_tarefa
            rw [if_neg (not_not_intro hv2), if_pos hany2]
          · refine ⟨.validation, ?_⟩
            unfold adicionar_tarefa
            rw [if_pos hv2]
    · rw [if_pos hval] at hok
      cases hok

/-- C5 witness: on the empty store, adding with priority `urgent` is a
ValidationError; after a successful add of `X`, the store counts one task
named `X` and a second add of `X` fails. -/
theorem C5_add_witness :
    (adicionar_tarefa ⟨[]⟩ "X" "urgent" "c" ⟨2024, 1, 2, 3, 4, 5, 0⟩ = .error .validation) ∧
    ((List.countP (fun t => decide (t.nome = "X"))
        [Task.init "X" "alta" "c" ⟨2024, 1, 2, 3, 4, 5, 0⟩]) = 1 ∧
      ∀ p2 c2 (now2 : DateTime), ∃ e,
        adicionar_tarefa ⟨[Task.init "X" "alta" "c" ⟨2024, 1, 2, 3, 4, 5, 0⟩]⟩ "X" p2 c2 now2 =
          .error e) :=
  ⟨(C5_add ⟨[]⟩ "X" "urgent" "c" ⟨2024, 1, 2, 3, 4, 5, 0⟩).1 (by decide),
    (C5_add ⟨[]⟩ "X" "alta" "c" ⟨2024, 1, 2, 3, 4, 5, 0⟩).2.2
      ⟨[Task.init "X" "alta" "c" ⟨2024, 1, 2, 3, 4, 5, 0⟩]⟩
      (salvar_tarefas ⟨[Task.init "X" "alta" "c" ⟨2024, 1, 2, 3, 4, 5, 0⟩]⟩) (by decide)⟩

/-- Successful-add inversion: the new list is the old one plus the fresh
task at the end, and no old task had the added name. -/
theorem adicionar_ok_inv (m : TaskManager) (nome p c : String) (now : DateTime)
    (m' : TaskManager) (f : String)
    (hok : adicionar_tarefa m nome p c now = .ok (m', f)) :
    m'.tasks = m.tasks ++ [Task.init nome p c now] ∧
    (m.tasks.any fun t => decide (t.nome = nome)) = false ∧
    f = salvar_tarefas ⟨m.tasks ++ [Task.init nome p c now]⟩ := by
  unfold adicionar_tarefa at hok
  by_cases hval : (["baixa", "média", "alta"] : List String).contains (pyLower p) = true
  · rw [if_neg (not_not_intro hval)] at hok
    by_cases hdup : (m.tasks.any fun t => decide (t.nome = nome)) = true
    · rw [if_pos hdup] at hok
      cases hok
    · rw [if_neg hdup] at hok
      injection hok with hok
      injection hok with hok1 hok2
      exact ⟨by rw [← hok1], Bool.eq_false_iff.mpr hdup, hok2.symm⟩
  · rw [if_pos hval] at hok
    cases hok

/-- Successful-complete inversion. -/
theorem concluir_ok_inv (m : TaskManager) (nome : String) (now : DateTime)
    (m' : TaskManager) (f : String)
    (hok : concluir_tarefa m nome now = .ok (m', f)) :
    ∃ ts, completeFirst nome now m.tasks = some ts ∧ m' = ⟨ts⟩ := by
  unfold concluir_tarefa at hok
  cases hcf : completeFirst nome now m.tasks with
  | none =>
    rw [hcf] at hok
    cases hok
  | some ts =>
    rw [hcf] at hok
    injection hok with hok
    injection hok with h1 h2
    exact ⟨ts, rfl, h1.symm⟩

theorem completeFirst_map_nome (nome : String) (now : DateTime) (ts ts' : List Task)
    (h : completeFirst nome now ts = some ts') : ts'.map Task.nome = ts.map Task.nome := by
  induction ts generalizing ts' with
  | nil => cases h
  | cons t rest ih =>
    rw [completeFirst] at h
    by_cases hn : t.nome = nome
    · rw [if_pos hn] at h
      injection h with h
      subst h
      simp [Task.concluir]
    · rw [if_neg hn] at h
      cases hcf : completeFirst nome now rest with
      | none =>
        rw [hcf] at h
        cases h
      | some ts2 =>
        rw [hcf] at h
        simp only [Option.map_some'] at h
        injection h with h
        subst h
        simp [ih ts2 hcf]

theorem completeFirst_mem (nome : String) (now : DateTime) (ts ts' : List Task)
    (h : completeFirst nome now ts = some ts') :
    ∀ u ∈ ts', u ∈ ts ∨ ∃ t, t ∈ ts ∧ u = t.concluir now := by
  induction ts generalizing ts' with
  | nil => cases h
  | cons t rest ih =>
    rw [completeFirst] at h
    by_cases hn : t.nome = nome
    · rw [if_pos hn] at h
      injection h with h
      subst h
      intro u hu
      rcases List.mem_cons.mp hu with rfl | hu
      · exact Or.inr ⟨t, List.mem_cons_self _ _, rfl⟩
      · exact Or.inl (List.mem_cons_of_mem _ hu)
    · rw [if_neg hn] at h
      cases hcf : completeFirst nome now rest with
      | none =>
        rw [hcf] at h
        cases h
      | some ts2 =>
        rw [hcf] at h
        simp only [Option.map_some'] at h
        injection h with h
        subst h
        intro u hu
        rcases List.mem_cons.mp hu with rfl | hu
        · exact Or.inl (List.mem_cons_self _ _)
        · rcases ih ts2 hcf u hu with h1 | ⟨t2, ht2, h2⟩
          · exact Or.inl (List.mem_cons_of_mem _ h1)
          · exact Or.inr ⟨t2, List.mem_cons_of_mem _ ht2, h2⟩

/-- No two tasks of the list share a name. -/
def NamesUnique (ts : List Task) : Prop := (ts.map Task.nome).Nodup

/-- Completion-consistency: the completion timestamp is non-null exactly
when the completion flag is set, for every task of the list. -/
def TasksOK (ts : List Task) : Prop :=
  ∀ t ∈ ts, (t.concluida = true ↔ t.data_conclusao ≠ none)

/-- Each successful operation preserves name uniqueness and
completion-consistency. -/
theorem step_preserves (m m' : TaskManager) (h : Step m m') :
    (NamesUnique m.tasks → NamesUnique m'.tasks) ∧
    (TasksOK m.tasks → TasksOK m'.tasks) := by
  cases h with
  | add nome p c now mm f hok =>
    obtain ⟨hm', hany, -⟩ := adicionar_ok_inv _ nome p c now _ f hok
    constructor
    · intro hu
      rw [NamesUnique, hm', List.map_append]
      have hnin : nome ∉ m.tasks.map Task.nome := by
        intro hmem
        obtain ⟨t, ht, hteq⟩ := List.mem_map.mp hmem
        have := List.any_eq_false.mp hany t ht
        simp [hteq] at this
      simp [List.nodup_append, Task.init]
      exact ⟨hu, fun t ht hteq => hnin (hteq ▸ List.mem_map_of_mem Task.nome ht)⟩
    · intro hok2
      rw [TasksOK, hm']
      intro u hu
      rcases List.mem_append.mp hu with hu | hu
      · exact hok2 u hu
      · rcases List.mem_cons.mp hu with rfl | hu
        · simp [Task.init]
        · cases hu
  | complete nome now mm f hok =>
    obtain ⟨ts, hcf, hmm⟩ := concluir_ok_inv _ nome now _ f hok
    subst hmm
    constructor
    · intro hu
      rw [NamesUnique, completeFirst_map_nome nome now m.tasks ts hcf]
      exact hu
    · intro hok2
      intro u hu
      rcases completeFirst_mem nome now m.tasks ts hcf u hu with h1 | ⟨t, ht, h2⟩
      · exact hok2 u h1
      · subst h2
        simp [Task.concluir]
  | remove nome =>
    constructor
    · intro hu
      have hsub := (List.filter_sublist (l := m.tasks)
        (p := fun t => ! decide (t.nome = nome))).map Task.nome
      exact hu.sublist hsub
    · intro hok2
      intro u hu
      exact hok2 u (List.mem_of_mem_filter hu)

/-- C3 (amended): starting from any store whose task names are unique —
in particular the store loaded from an empty or absent file — every
sequence of successful Add/Complete/Remove operations preserves the
uniqueness of names.  (Loading a file that itself contains duplicate
names violates the invariant; see the counterexample.) -/
theorem C3_unique_names (m0 m : TaskManager) (h : StepStar m0 m)
    (hu : NamesUnique m0.tasks) : NamesUnique m.tasks := by
  induction h with
  | refl => exact hu
  | tail m2 m3 hstar hstep ih => exact (step_preserves m2 m3 hstep).1 ih

/-- C3 witness: one add step from the empty store keeps names unique. -/
theorem C3_unique_names_witness :
    NamesUnique [Task.init "X" "alta" "c" ⟨2024, 1, 2, 3, 4, 5, 0⟩] :=
  C3_unique_names ⟨[]⟩ ⟨[Task.init "X" "alta" "c" ⟨2024, 1, 2, 3, 4, 5, 0⟩]⟩
    (StepStar.tail _ _ _ (StepStar.refl _)
      (Step.add ⟨[]⟩ "X" "alta" "c" ⟨2024, 1, 2, 3, 4, 5, 0⟩
        ⟨[Task.init "X" "alta" "c" ⟨2024, 1, 2, 3, 4, 5, 0⟩]⟩
        (salvar_tarefas ⟨[Task.init "X" "alta" "c" ⟨2024, 1, 2, 3, 4, 5, 0⟩]⟩) (by decide)))
    (by simp [NamesUnique])

/-- The store loaded from a backing file whose two lines carry the same
name `a`. -/
def mC3 : TaskManager :=
  ⟨[⟨"a", "baixa", "c", ⟨2024, 1, 2, 3, 4, 5, 0⟩, false, none⟩,
    ⟨"a", "alta", "d", ⟨2024, 1, 2, 3, 4, 5, 0⟩, false, none⟩]⟩

/-- C3, counterexample: the claim quantifies over stores initialized by
Load from an arbitrary parseable backing file, but loading a parseable
file with two lines named `a` yields a reachable store whose names are
not unique — nothing deduplicates on load. -/
theorem C3_counterexample : Reachable mC3 ∧ ¬ NamesUnique mC3.tasks :=
  ⟨⟨some "a;baixa;c;2024-01-02 03:04:05;False;None\na;alta;d;2024-01-02 03:04:05;False;None\n",
    mC3, by decide, StepStar.refl mC3⟩, by unfold NamesUnique; decide⟩

/-- C4 (amended): starting from any store all of whose tasks satisfy the
completion invariant (completed_at non-null iff completed) — in
particular the store loaded from an empty or absent file — every
sequence of successful Add/Complete/Remove operations preserves the
invariant for every task.  (Deserialize itself does not enforce it; see
the counterexample.) -/
theorem C4_completion_inv (m0 m : TaskManager) (h : StepStar m0 m)
    (h0 : TasksOK m0.tasks) : TasksOK m.tasks := by
  induction h with
  | refl => exact h0
  | tail m2 m3 hstar hstep ih => exact (step_preserves m2 m3 hstep).2 ih

/-- C4 witness: add then complete starting from the empty store; the
resulting single task satisfies the invariant. -/
theorem C4_completion_inv_witness :
    TasksOK [⟨"X", "alta", "c", ⟨2024, 1, 2, 3, 4, 5, 0⟩, true, some ⟨2024, 1, 2, 4, 0, 0, 0⟩⟩] :=
  C4_completion_inv ⟨[]⟩
    ⟨[⟨"X", "alta", "c", ⟨2024, 1, 2, 3, 4, 5, 0⟩, true, some ⟨2024, 1, 2, 4, 0, 0, 0⟩⟩]⟩
    (StepStar.tail _ _ _
      (StepStar.tail _ _ _ (StepStar.refl _)
        (Step.add ⟨[]⟩ "X" "alta" "c" ⟨2024, 1, 2, 3, 4, 5, 0⟩
          ⟨[Task.init "X" "alta" "c" ⟨2024, 1, 2, 3, 4, 5, 0⟩]⟩
          (salvar_tarefas ⟨[Task.init "X" "alta" "c" ⟨2024, 1, 2, 3, 4, 5, 0⟩]⟩) (by decide)))
      (Step.complete ⟨[Task.init "X" "alta" "c" ⟨2024, 1, 2, 3, 4, 5, 0⟩]⟩ "X"
        ⟨2024, 1, 2, 4, 0, 0, 0⟩
        ⟨[⟨"X", "alta", "c", ⟨2024, 1, 2, 3, 4, 5, 0⟩, true, some ⟨2024, 1, 2, 4, 0, 0, 0⟩⟩]⟩
        (salvar_tarefas
          ⟨[⟨"X", "alta", "c", ⟨2024, 1, 2, 3, 4, 5, 0⟩, true, some ⟨2024, 1, 2, 4, 0, 0, 0⟩⟩]⟩)
        (by decide)))
    (fun t ht => absurd ht (List.not_mem_nil t))

/-- The store loaded from a one-line backing file whose flag field is
`True` while its completion field is `None`. -/
def mC4 : TaskManager := ⟨[⟨"a", "b", "c", ⟨2024, 1, 2, 3, 4, 5, 0⟩, true, none⟩]⟩

/-- C4, counterexample: the claim covers tasks produced by Deserialize
during Load from an arbitrary parseable file, but the parseable line
`a;b;c;2024-01-02 03:04:05;True;None` loads a reachable store whose task
is completed with a null completion timestamp. -/
theorem C4_counterexample : Reachable mC4 ∧ ¬ TasksOK mC4.tasks :=
  ⟨⟨some "a;b;c;2024-01-02 03:04:05;True;None\n", mC4, by decide, StepStar.refl mC4⟩, by unfold TasksOK; decide⟩

/-- Validity of an optional completion timestamp. -/
def validOpt : Option DateTime → Bool
  | none => true
  | some d => d.valid

/-- A task whose line survives the file format: no `;` (the unescaped
separator — the design note makes this the caller's responsibility), no
newline and no carriage return (both end a line under the reader's
universal-newlines translation) inside the string fields, and in-range
timestamps. -/
def serializable (t : Task) : Bool :=
  ! decide (';' ∈ t.nome.data) && ! decide (';' ∈ t.prioridade.data) &&
  ! decide (';' ∈ t.categoria.data) &&
  ! decide ('\n' ∈ t.nome.data) && ! decide ('\n' ∈ t.prioridade.data) &&
  ! decide ('\n' ∈ t.categoria.data) &&
  ! decide ('\r' ∈ t.nome.data) && ! decide ('\r' ∈ t.prioridade.data) &&
  ! decide ('\r' ∈ t.categoria.data) &&
  t.data_criacao.valid && validOpt t.data_conclusao

theorem serializable_spec (t : Task) (h : serializable t = true) :
    ';' ∉ t.nome.data ∧ ';' ∉ t.prioridade.data ∧ ';' ∉ t.categoria.data ∧
    '\n' ∉ t.nome.data ∧ '\n' ∉ t.prioridade.data ∧ '\n' ∉ t.categoria.data ∧
    '\r' ∉ t.nome.data ∧ '\r' ∉ t.prioridade.data ∧ '\r' ∉ t.categoria.data ∧
    t.data_criacao.valid = true ∧ ∀ d, t.data_conclusao = some d → d.valid = true := by
  simp only [serializable, Bool.and_eq_true, Bool.not_eq_true', decide_eq_false_iff_not] at h
  obtain ⟨⟨⟨⟨⟨⟨⟨⟨⟨⟨h1, h2⟩, h3⟩, h4⟩, h5⟩, h6⟩, h7⟩, h8⟩, h9⟩, h10⟩, h11⟩ := h
  refine ⟨h1, h2, h3, h4, h5, h6, h7, h8, h9, h10, ?_⟩
  intro d hd
  rw [hd] at h11
  exact h11

theorem to_line_no_newline (t : Task) (h : serializable t = true) :
    '\n' ∉ (Task.to_line t).data := by
  obtain ⟨s1, s2, s3, n1, n2, n3, -, -, -, hv, hvo⟩ := serializable_spec t h
  have hFn : '\n' ∉ fmtDateTime 'T' t.data_criacao :=
    fmt_not_mem 'T' _ hv '\n' (by decide) (by decide) (by decide) (by decide) (by decide)
  have hBn : '\n' ∉ (if t.concluida then ("True" : String) else "False").data := by
    cases t.concluida <;> decide
  have hDn : '\n' ∉ (strOptDT t.data_conclusao).data := by
    cases hd : t.data_conclusao with
    | none => decide
    | some d =>
      exact fmt_not_mem ' ' d (hvo d hd) '\n' (by decide) (by decide) (by decide) (by decide)
        (by decide)
  have hne : ¬ ('\n' = ';') := by decide
  rw [to_line_data]
  intro hmem
  simp only [List.mem_append, List.mem_cons] at hmem
  tauto

theorem to_line_no_cr (t : Task) (h : serializable t = true) :
    '\r' ∉ (Task.to_line t).data := by
  obtain ⟨s1, s2, s3, -, -, -, r1, r2, r3, hv, hvo⟩ := serializable_spec t h
  have hFn : '\r' ∉ fmtDateTime 'T' t.data_criacao :=
    fmt_not_mem 'T' _ hv '\r' (by decide) (by decide) (by decide) (by decide) (by decide)
  have hBn : '\r' ∉ (if t.concluida then ("True" : String) else "False").data := by
    cases t.concluida <;> decide
  have hDn : '\r' ∉ (strOptDT t.data_conclusao).data := by
    cases hd : t.data_conclusao with
    | none => decide
    | some d =>
      exact fmt_not_mem ' ' d (hvo d hd) '\r' (by decide) (by decide) (by decide) (by decide)
        (by decide)
  have hne : ¬ ('\r' = ';') := by decide
  rw [to_line_data]
  intro hmem
  simp only [List.mem_append, List.mem_cons] at hmem
  tauto

theorem univNL_eq_self : ∀ cs : List Char, '\r' ∉ cs → univNL cs = cs := by
  intro cs
  induction cs with
  | nil => intro _; rfl
  | cons c cs ih =>
    intro h
    have hc : ¬ c = '\r' := fun hh => h (hh ▸ List.mem_cons_self c cs)
    have hcs : '\r' ∉ cs := fun hh => h (List.mem_cons_of_mem c hh)
    cases cs with
    | nil => simp [univNL, hc]
    | cons c2 cs2 => rw [univNL, if_neg hc, ih hcs]

theorem pyLinesAux_append (xs : List Char) : ∀ acc rest, '\n' ∉ xs →
    pyLinesAux acc (xs ++ '\n' :: rest) = (acc ++ xs ++ ['\n']) :: pyLinesAux [] rest := by
  induction xs with
  | nil =>
    intro acc rest _
    simp [pyLinesAux]
  | cons c cs ih =>
    intro acc rest hx
    have hc : ¬ c = '\n' := fun hh => hx (hh ▸ List.mem_cons_self c cs)
    have hcs : '\n' ∉ cs := fun hh => hx (List.mem_cons_of_mem c hh)
    rw [List.cons_append, pyLinesAux, if_neg hc, ih (acc ++ [c]) rest hcs]
    simp [List.append_assoc]

theorem pyLines_flatten (lines : List (List Char)) (h : ∀ l ∈ lines, '\n' ∉ l) :
    pyLinesAux [] ((lines.map fun l => l ++ ['\n']).flatten) =
      lines.map fun l => l ++ ['\n'] := by
  induction lines with
  | nil => rfl
  | cons l ls ih =>
    simp only [List.map_cons, List.flatten_cons]
    rw [show (l ++ ['\n']) ++ ((ls.map fun l => l ++ ['\n']).flatten) =
        l ++ '\n' :: ((ls.map fun l => l ++ ['\n']).flatten) from by simp,
      pyLinesAux_append l [] _ (h l (List.mem_cons_self _ _)),
      ih fun x hx => h x (List.mem_cons_of_mem _ hx)]
    simp

theorem pyLines_salvar (m : TaskManager)
    (h : ∀ t ∈ m.tasks, '\n' ∉ (Task.to_line t).data ∧ '\r' ∉ (Task.to_line t).data) :
    pyLines (salvar_tarefas m) =
      m.tasks.map fun t => (⟨(Task.to_line t).data ++ ['\n']⟩ : String) := by
  unfold pyLines salvar_tarefas
  rw [show ((⟨((m.tasks.map fun t => (Task.to_line t).data ++ ['\n'])).flatten⟩ :
      String)).data = ((m.tasks.map fun t => (Task.to_line t).data ++ ['\n'])).flatten from rfl]
  rw [univNL_eq_self _ (by
    intro hmem
    obtain ⟨l, hl, hml⟩ := List.mem_flatten.mp hmem
    obtain ⟨t, ht, rfl⟩ := List.mem_map.mp hl
    rcases List.mem_append.mp hml with h1 | h1
    · exact (h t ht).2 h1
    · rcases List.mem_singleton.mp h1 with h2
      cases h2)]
  rw [show m.tasks.map (fun t => (Task.to_line t).data ++ ['\n']) =
      ((m.tasks.map fun t => (Task.to_line t).data).map fun l => l ++ ['\n']) from by
    rw [List.map_map]; rfl]
  rw [pyLines_flatten _ (by
    intro l hl
    obtain ⟨t, ht, rfl⟩ := List.mem_map.mp hl
    exact (h t ht).1)]
  rw [List.map_map, List.map_map]
  rfl

/-- The record `from_line` recovers from a serialized task line: the name
loses its leading whitespace (stripped with the line) and the priority is
lowercased again by the constructor. -/
def reparse (t : Task) : Task :=
  { t with nome := ⟨t.nome.data.dropWhile isSpace⟩, prioridade := pyLower t.prioridade }

theorem parseLines_ok (ts : List Task) (h : ∀ t ∈ ts, serializable t = true) :
    parseLines (ts.map fun t => (⟨(Task.to_line t).data ++ ['\n']⟩ : String)) =
      some (ts.map reparse) := by
  induction ts with
  | nil => rfl
  | cons t rest ih =>
    obtain ⟨s1, s2, s3, -, -, -, -, -, -, hv, hvo⟩ :=
      serializable_spec t (h t (List.mem_cons_self _ _))
    have hline := from_line_to_line t ['\n'] (Or.inr rfl) s1 s2 s3 hv hvo
    simp only [List.map_cons, parseLines, hline, ih fun x hx => h x (List.mem_cons_of_mem _ hx)]
    rfl

/-- Reconstructing a store from the exact file content written by
`salvar_tarefas`: every line parses back (to its reparsed record). -/
theorem carregar_salvar (m : TaskManager) (h : ∀ t ∈ m.tasks, serializable t = true) :
    carregar_tarefas (some (salvar_tarefas m)) = some (m.tasks.map reparse) := by
  show parseLines (pyLines (salvar_tarefas m)) = some (m.tasks.map reparse)
  rw [pyLines_salvar m fun t ht => ⟨to_line_no_newline t (h t ht), to_line_no_cr t (h t ht)⟩]
  exact parseLines_ok m.tasks h

/-- C8: after a successful `Add("X", "baixa", "work")` on a store whose
tasks are all serializable (no `;`, newline or carriage return in their
string fields — the format's caller-responsibility precondition — and
in-range timestamps) with an in-range clock, reconstructing a store from the file
content just written succeeds, and its full listing contains a task named
`X` with priority `baixa`, category `work`, and the flag unset. -/
theorem C8_durability (m : TaskManager) (now : DateTime)
    (hser : ∀ t ∈ m.tasks, serializable t = true) (hnow : now.valid = true) :
    ∀ m' f, adicionar_tarefa m "X" "baixa" "work" now = .ok (m', f) →
      ∃ m2, TaskManager.init (some f) = some m2 ∧
        ∃ t ∈ listar_tarefas m2 none,
          t.nome = "X" ∧ t.prioridade = "baixa" ∧ t.categoria = "work" ∧
          t.concluida = false := by
  intro m' f hok
  obtain ⟨hm', hany, hf⟩ := adicionar_ok_inv m "X" "baixa" "work" now m' f hok
  have hserX : serializable (Task.init "X" "baixa" "work" now) = true := by
    simp only [serializable, validOpt, Task.init, hnow]
    rfl
  have hser' : ∀ t ∈ m'.tasks, serializable t = true := by
    rw [hm']
    intro t ht
    rcases List.mem_append.mp ht with h1 | h1
    · exact hser t h1
    · rcases List.mem_cons.mp h1 with rfl | h1
      · exact hserX
      · cases h1
  have hload := carregar_salvar m' hser'
  refine ⟨⟨m'.tasks.map reparse⟩, ?_, ?_⟩
  · unfold TaskManager.init
    rw [hf, show salvar_tarefas ⟨m.tasks ++ [Task.init "X" "baixa" "work" now]⟩ =
        salvar_tarefas m' from by rw [← hm'], hload]
    rfl
  · refine ⟨reparse (Task.init "X" "baixa" "work" now), ?_, ?_, ?_, ?_, ?_⟩
    · have hlist : listar_tarefas ⟨m'.tasks.map reparse⟩ none = m'.tasks.map reparse := by
        simp [listar_tarefas]
      rw [hlist]
      refine List.mem_map_of_mem reparse ?_
      rw [hm']
      exact List.mem_append_right _ (List.mem_cons_self _ _)
    · rfl
    · show pyLower (pyLower "baixa") = "baixa"
      decide
    · rfl
    · rfl

/-- C8 witness: adding `X` to the empty store, then loading the file
content that the add wrote. -/
theorem C8_durability_witness :
    ∃ m2, TaskManager.init (some (salvar_tarefas
        ⟨[Task.init "X" "baixa" "work" ⟨2024, 1, 2, 3, 4, 5, 0⟩]⟩)) = some m2 ∧
      ∃ t ∈ listar_tarefas m2 none,
        t.nome = "X" ∧ t.prioridade = "baixa" ∧ t.categoria = "work" ∧ t.concluida = false :=
  C8_durability ⟨[]⟩ ⟨2024, 1, 2, 3, 4, 5, 0⟩
    (fun t ht => absurd ht (List.not_mem_nil t)) (by decide)
    ⟨[Task.init "X" "baixa" "work" ⟨2024, 1, 2, 3, 4, 5, 0⟩]⟩
    (salvar_tarefas ⟨[Task.init "X" "baixa" "work" ⟨2024, 1, 2, 3, 4, 5, 0⟩]⟩)
    (by decide)

end Pik
